import Mathlib

/-!
Formal model of the bias-detection core: the function `bias_analysis(df, sensitive, target)`
of `app.py` (lines 28-73).  The dataset is modelled as a list of named columns of tagged
scalar values (numeric or text), numeric values as exact rationals.  `bias_analysis`
mutates its argument in place when the target column is non-numeric
(`df[target] = pd.factorize(df[target])[0]`), so the embedding returns the post-call
dataset alongside the result.  Failure paths of the pandas code (KeyError on a missing
column, ValueError from `idxmax` on an empty value-counts series) are modelled with an
explicit error type.  Ordering choices that pandas leaves incidental (the ordering of the
`value_counts` series among tied counts, the ordering of groupby keys) do not affect any
computed metric; the model lists groups in first-seen order throughout.
-/

namespace BiasDashboard

/-- A scalar cell value: numeric (pandas numeric dtypes, modelled as `ℚ`) or text. -/
inductive Value where
  | num (q : ℚ)
  | str (s : String)
deriving DecidableEq

/-- Whether a value is numeric. -/
def Value.isNum : Value → Bool
  | .num _ => true
  | .str _ => false

/-- Numeric content of a value (only used on columns that passed the numeric check). -/
def toQ : Value → ℚ
  | .num q => q
  | .str _ => 0

/-- A dataframe: an ordered list of named columns. -/
abbrev Dataset := List (String × List Value)

/-- `df[name]` — the first column with the given name, if any (KeyError otherwise). -/
def getCol (d : Dataset) (name : String) : Option (List Value) :=
  (d.find? fun p => decide (p.1 = name)).map Prod.snd

/-- `df[name] = vals` — in-place replacement of the named column's values. -/
def setCol (d : Dataset) (name : String) (vals : List Value) : Dataset :=
  d.map fun p => if p.1 = name then (p.1, vals) else p

/-- `len(df)` — number of rows. -/
def nrows (d : Dataset) : Nat :=
  match d with
  | [] => 0
  | p :: _ => p.2.length

/-- Well-formedness: every column has the same length (a rectangular table). -/
abbrev WF (d : Dataset) : Prop := ∀ p ∈ d, p.2.length = nrows d

/-- `pd.api.types.is_numeric_dtype` on a column of the model. -/
def isNumericCol (vs : List Value) : Bool := vs.all Value.isNum

/-- The distinct values of a list in first-seen order. -/
def firstOccs : List Value → List Value
  | [] => []
  | v :: vs => v :: (firstOccs vs).filter fun w => decide (w ≠ v)

/-- `pd.factorize(col)[0]` — replace each value by the integer code of its first-seen rank. -/
def factorize (vs : List Value) : List Value :=
  vs.map fun v => Value.num ((firstOccs vs).indexOf v : ℚ)

/-- Arithmetic mean of a list of rationals (`Series.mean`). -/
def mean (xs : List ℚ) : ℚ := xs.sum / (xs.length : ℚ)

/-- The target values of the rows belonging to sensitive-group `g`. -/
def groupVals (svs tvs : List Value) (g : Value) : List ℚ :=
  (svs.zip tvs).filterMap fun p => if p.1 = g then some (toQ p.2) else none

/-- `Series.max` on a nonempty numeric series (0 is a junk value for `[]`, never hit). -/
def listMax : List ℚ → ℚ
  | [] => 0
  | x :: xs => xs.foldl max x

/-- `Series.min` on a nonempty numeric series (0 is a junk value for `[]`, never hit). -/
def listMin : List ℚ → ℚ
  | [] => 0
  | x :: xs => xs.foldl min x

/-- `df[sensitive].value_counts(normalize=True)` (line 42), listed in first-seen order. -/
def rep (scol : List Value) : List (Value × ℚ) :=
  (firstOccs scol).map fun g => (g, (scol.count g : ℚ) / (scol.length : ℚ))

/-- `rep.max()` (line 44); models the Python local `dominant_ratio`. -/
def dominant_share (scol : List Value) : ℚ := listMax ((rep scol).map Prod.snd)

/-- `rep.idxmax()` (line 43): the first entry of the series attaining the maximum. -/
def dominant_group (scol : List Value) : Value :=
  (((rep scol).find? fun p => decide (p.2 = dominant_share scol)).getD (Value.num 0, 0)).1

/-- `rep_issue = dominant_ratio > 0.7` (line 45). -/
def rep_issue (scol : List Value) : Bool := decide (dominant_share scol > 7/10)

/-- `df.groupby(sensitive)[target].mean()` (line 48), keys in first-seen order. -/
def label_dist (scol tcol : List Value) : List (Value × ℚ) :=
  (firstOccs scol).map fun g => (g, mean (groupVals scol tcol g))

/-- `diff = label_dist.max() - label_dist.min()`; `spd = diff` (lines 49 and 53). -/
def spd (scol tcol : List Value) : ℚ :=
  listMax ((label_dist scol tcol).map Prod.snd) - listMin ((label_dist scol tcol).map Prod.snd)

/-- `di = label_dist.min() / label_dist.max() if label_dist.max() > 0 else 1` (line 54). -/
def di (scol tcol : List Value) : ℚ :=
  if 0 < listMax ((label_dist scol tcol).map Prod.snd) then
    listMin ((label_dist scol tcol).map Prod.snd) / listMax ((label_dist scol tcol).map Prod.snd)
  else 1

/-- `label_issue = diff > 0.2` (line 50). -/
def label_issue (scol tcol : List Value) : Bool := decide (spd scol tcol > 1/5)

/-- `fairness_issue = spd > 0.1 or di < 0.8` (line 55). -/
def fairness_issue (scol tcol : List Value) : Bool :=
  decide (spd scol tcol > 1/10) || decide (di scol tcol < 4/5)

/-- `issues = sum([rep_issue, label_issue, fairness_issue])` (line 57). -/
def issues (scol tcol : List Value) : Nat :=
  (if rep_issue scol then 1 else 0) + (if label_issue scol tcol then 1 else 0) +
    (if fairness_issue scol tcol then 1 else 0)

/-- `traffic = "green" if issues == 0 else "yellow" if issues == 1 else "red"` (line 58). -/
def traffic (scol tcol : List Value) : String :=
  if issues scol tcol = 0 then "green" else if issues scol tcol = 1 then "yellow" else "red"

/-- Failures surfaced by the pandas code: `KeyError` from `df[col]` on a missing column,
`ValueError` from `rep.idxmax()` on an empty series. -/
inductive AnalysisError where
  | keyError (col : String)
  | emptyIdxmax
deriving DecidableEq

/-- The report dictionary built by `bias_analysis` (lines 29-71).  `dominant_share` models
the `"dominant_ratio"` key. -/
structure Report where
  target_encoded : Bool
  rows : Nat
  columns : Nat
  rep : List (Value × ℚ)
  label_dist : List (Value × ℚ)
  rep_issue : Bool
  label_issue : Bool
  fairness_issue : Bool
  traffic : String
  dominant_group : Value
  dominant_share : ℚ
  spd : ℚ
  di : ℚ
deriving DecidableEq

/-- The report returned on the success path, assembled from the statistics of the working
dataset `df` whose sensitive column is `scol` and (possibly encoded) target column `tcol`. -/
def buildReport (df : Dataset) (scol tcol : List Value) (enc : Bool) : Report where
  target_encoded := enc
  rows := nrows df
  columns := df.length
  rep := rep scol
  label_dist := label_dist scol tcol
  rep_issue := rep_issue scol
  label_issue := label_issue scol tcol
  fairness_issue := fairness_issue scol tcol
  traffic := traffic scol tcol
  dominant_group := dominant_group scol
  dominant_share := dominant_share scol
  spd := spd scol tcol
  di := di scol tcol

/-- Lines 38-73 of `bias_analysis`, after the target-coercion step: read the sensitive
column (KeyError if absent, line 42), fail like `rep.idxmax()` when it has no values
(line 43), otherwise return the full report.  `df` is the working (= post-call) dataset
and `tcol` its target column. -/
def analyzeCore (df : Dataset) (sensitive : String) (tcol : List Value) (enc : Bool) :
    Except AnalysisError Report × Dataset :=
  match getCol df sensitive with
  | none => (Except.error (AnalysisError.keyError sensitive), df)
  | some scol =>
    if firstOccs scol = [] then (Except.error AnalysisError.emptyIdxmax, df)
    else (Except.ok (buildReport df scol tcol enc), df)

/-- `bias_analysis(df, sensitive, target)` (lines 28-73).  The first component is the
returned report (or the raised error); the second is the caller's dataset after the call,
reflecting the in-place coercion `df[target] = pd.factorize(df[target])[0]` of line 33. -/
def bias_analysis (df : Dataset) (sensitive target : String) :
    Except AnalysisError Report × Dataset :=
  match getCol df target with
  | none => (Except.error (AnalysisError.keyError target), df)
  | some tcol =>
    if isNumericCol tcol then analyzeCore df sensitive tcol false
    else analyzeCore (setCol df target (factorize tcol)) sensitive (factorize tcol) true

/-- Count of true flags among the three issue flags of a report (spec risk-level input). -/
def flagCount (r : Report) : Nat :=
  (if r.rep_issue then 1 else 0) + (if r.label_issue then 1 else 0) +
    (if r.fairness_issue then 1 else 0)

/-- Empty two-column table: zero rows, both columns present. -/
def emptyTable : Dataset := [("s", []), ("t", [])]

/-- Table with a text target column and an extra numeric column. -/
def mixedTable : Dataset :=
  [("s", [.str "a", .str "b"]), ("t", [.str "yes", .str "no"]), ("u", [.num 1, .num 2])]

/-- Table with a text target column. -/
def textTargetTable : Dataset := [("s", [.str "a", .str "b"]), ("t", [.str "yes", .str "no"])]

/-- Table holding only a text target column; the sensitive column is absent. -/
def noSensTable : Dataset := [("t", [.str "yes"])]

/-- Valid numeric table with two sensitive groups. -/
def twoGroupTable : Dataset := [("s", [.str "a", .str "b"]), ("t", [.num 1, .num 0])]

/-- The target column of `twoGroupTable` / `oneGroupTable`. -/
def numTargetCol : List Value := [.num 1, .num 0]

/-- Valid table whose sensitive column has a single distinct value. -/
def oneGroupTable : Dataset := [("s", [.str "a", .str "a"]), ("t", [.num 1, .num 0])]

/-- Three-row text target column used to exhibit first-seen encoding. -/
def yesNoCol : List Value := [.str "yes", .str "no", .str "yes"]

/-- Table whose target column is `yesNoCol`. -/
def yesNoTable : Dataset := [("s", [.str "a", .str "b", .str "a"]), ("t", yesNoCol)]

lemma mem_firstOccs : ∀ {l : List Value} {a : Value}, a ∈ firstOccs l ↔ a ∈ l
  | [], a => by simp [firstOccs]
  | v :: vs, a => by
    simp only [firstOccs, List.mem_cons, List.mem_filter, decide_eq_true_eq]
    constructor
    · rintro (rfl | ⟨h, -⟩)
      · exact Or.inl rfl
      · exact Or.inr (mem_firstOccs.mp h)
    · rintro (rfl | h)
      · exact Or.inl rfl
      · by_cases hv : a = v
        · exact Or.inl hv
        · exact Or.inr ⟨mem_firstOccs.mpr h, hv⟩

lemma firstOccs_nodup : ∀ l : List Value, (firstOccs l).Nodup
  | [] => List.nodup_nil
  | v :: vs => by
    simp only [firstOccs]
    refine List.nodup_cons.mpr ⟨?_, (firstOccs_nodup vs).filter _⟩
    intro hmem
    rcases List.mem_filter.mp hmem with ⟨-, hne⟩
    simp at hne

lemma firstOccs_nil_iff {l : List Value} : firstOccs l = [] ↔ l = [] := by
  cases l <;> simp [firstOccs]

lemma firstOccs_perm_dedup (l : List Value) : List.Perm (firstOccs l) l.dedup :=
  (List.perm_ext_iff_of_nodup (firstOccs_nodup l) l.nodup_dedup).mpr fun a => by
    rw [mem_firstOccs, List.mem_dedup]

lemma sum_count_firstOccs (l : List Value) :
    ((firstOccs l).map fun g => l.count g).sum = l.length := by
  rw [((firstOccs_perm_dedup l).map fun g => l.count g).sum_eq,
    List.sum_map_count_dedup_eq_length]

lemma sum_map_natCast (l : List Value) (f : Value → ℕ) :
    (l.map fun a => ((f a : ℚ))).sum = (((l.map f).sum : ℕ) : ℚ) := by
  induction l with
  | nil => simp
  | cons v vs ih => simp [ih]

lemma sum_map_div (l : List Value) (f : Value → ℚ) (n : ℚ) :
    (l.map fun a => f a / n).sum = (l.map f).sum / n := by
  induction l with
  | nil => simp
  | cons v vs ih => simp [ih, add_div]

lemma foldl_max_mem (xs : List ℚ) : ∀ x : ℚ, xs.foldl max x ∈ x :: xs := by
  induction xs with
  | nil => intro x; simp
  | cons y ys ih =>
    intro x
    simp only [List.foldl_cons]
    rcases List.mem_cons.mp (ih (max x y)) with h | h
    · rcases max_choice x y with hm | hm
      · rw [h, hm]; exact List.mem_cons_self _ _
      · rw [h, hm]; exact List.mem_cons_of_mem _ (List.mem_cons_self _ _)
    · exact List.mem_cons_of_mem _ (List.mem_cons_of_mem _ h)

lemma init_le_foldl_max (xs : List ℚ) : ∀ x : ℚ, x ≤ xs.foldl max x := by
  induction xs with
  | nil => intro x; simp
  | cons y ys ih =>
    intro x
    simp only [List.foldl_cons]
    exact le_trans (le_max_left x y) (ih (max x y))

lemma mem_le_foldl_max (xs : List ℚ) : ∀ x y : ℚ, y ∈ xs → y ≤ xs.foldl max x := by
  induction xs with
  | nil => intro x y h; cases h
  | cons z zs ih =>
    intro x y hy
    simp only [List.foldl_cons]
    rcases List.mem_cons.mp hy with rfl | hy
    · exact le_trans (le_max_right x y) (init_le_foldl_max zs _)
    · exact ih _ _ hy

lemma foldl_min_mem (xs : List ℚ) : ∀ x : ℚ, xs.foldl min x ∈ x :: xs := by
  induction xs with
  | nil => intro x; simp
  | cons y ys ih =>
    intro x
    simp only [List.foldl_cons]
    rcases List.mem_cons.mp (ih (min x y)) with h | h
    · rcases min_choice x y with hm | hm
      · rw [h, hm]; exact List.mem_cons_self _ _
      · rw [h, hm]; exact List.mem_cons_of_mem _ (List.mem_cons_self _ _)
    · exact List.mem_cons_of_mem _ (List.mem_cons_of_mem _ h)

lemma foldl_min_le_init (xs : List ℚ) : ∀ x : ℚ, xs.foldl min x ≤ x := by
  induction xs with
  | nil => intro x; simp
  | cons y ys ih =>
    intro x
    simp only [List.foldl_cons]
    exact le_trans (ih (min x y)) (min_le_left x y)

lemma foldl_min_le_mem (xs : List ℚ) : ∀ x y : ℚ, y ∈ xs → xs.foldl min x ≤ y := by
  induction xs with
  | nil => intro x y h; cases h
  | cons z zs ih =>
    intro x y hy
    simp only [List.foldl_cons]
    rcases List.mem_cons.mp hy with rfl | hy
    · exact le_trans (foldl_min_le_init zs _) (min_le_right x y)
    · exact ih _ _ hy

lemma listMax_mem {l : List ℚ} (h : l ≠ []) : listMax l ∈ l := by
  cases l with
  | nil => exact absurd rfl h
  | cons x xs => exact foldl_max_mem xs x

lemma le_listMax {l : List ℚ} {y : ℚ} (hy : y ∈ l) : y ≤ listMax l := by
  cases l with
  | nil => cases hy
  | cons x xs =>
    rcases List.mem_cons.mp hy with rfl | hy
    · exact init_le_foldl_max xs y
    · exact mem_le_foldl_max xs x y hy

lemma listMin_mem {l : List ℚ} (h : l ≠ []) : listMin l ∈ l := by
  cases l with
  | nil => exact absurd rfl h
  | cons x xs => exact foldl_min_mem xs x

lemma listMin_le {l : List ℚ} {y : ℚ} (hy : y ∈ l) : listMin l ≤ y := by
  cases l with
  | nil => cases hy
  | cons x xs =>
    rcases List.mem_cons.mp hy with rfl | hy
    · exact foldl_min_le_init xs y
    · exact foldl_min_le_mem xs x y hy

lemma listMin_le_listMax {l : List ℚ} (h : l ≠ []) : listMin l ≤ listMax l :=
  le_listMax (listMin_mem h)

lemma getCol_cons (p : String × List Value) (d : Dataset) (name : String) :
    getCol (p :: d) name = if p.1 = name then some p.2 else getCol d name := by
  by_cases h : p.1 = name
  · simp [getCol, h]
  · simp [getCol, h]

lemma setCol_cons (p : String × List Value) (d : Dataset) (t : String) (v : List Value) :
    setCol (p :: d) t v = (if p.1 = t then (p.1, v) else p) :: setCol d t v := rfl

lemma getCol_setCol_self {d : Dataset} {t : String} (v : List Value) {c : List Value}
    (h : getCol d t = some c) : getCol (setCol d t v) t = some v := by
  induction d with
  | nil => simp [getCol] at h
  | cons p d ih =>
    rw [setCol_cons]
    by_cases hp : p.1 = t
    · rw [if_pos hp, getCol_cons]
      simp [hp]
    · rw [if_neg hp, getCol_cons, if_neg hp]
      rw [getCol_cons, if_neg hp] at h
      exact ih h

lemma getCol_setCol_ne (d : Dataset) (t : String) (v : List Value) {name : String}
    (h : name ≠ t) : getCol (setCol d t v) name = getCol d name := by
  induction d with
  | nil => rfl
  | cons p d ih =>
    rw [setCol_cons]
    by_cases hp : p.1 = t
    · have hn : ¬p.1 = name := fun hc => h (hc ▸ hp)
      rw [if_pos hp, getCol_cons, getCol_cons]
      simp only [hn, if_false, if_neg hn]
      exact ih
    · rw [if_neg hp, getCol_cons, getCol_cons]
      by_cases hn : p.1 = name
      · rw [if_pos hn, if_pos hn]
      · rw [if_neg hn, if_neg hn]
        exact ih

lemma exists_of_getCol {d : Dataset} {s : String} {c : List Value}
    (h : getCol d s = some c) : ∃ p ∈ d, p.2 = c := by
  rcases Option.map_eq_some'.mp h with ⟨p, hp, hc⟩
  exact ⟨p, List.mem_of_find?_eq_some hp, hc⟩

lemma factorize_length (l : List Value) : (factorize l).length = l.length := by
  simp [factorize]

lemma isNumericCol_factorize (l : List Value) : isNumericCol (factorize l) = true := by
  simp only [isNumericCol, factorize, List.all_map, List.all_eq_true]
  intro v hv
  rfl

lemma analyzeCore_eq_found {df : Dataset} {s : String} {scol : List Value}
    (tc : List Value) (enc : Bool) (h : getCol df s = some scol) :
    analyzeCore df s tc enc =
      if firstOccs scol = [] then (Except.error AnalysisError.emptyIdxmax, df)
      else (Except.ok (buildReport df scol tc enc), df) := by
  unfold analyzeCore
  rw [h]

lemma analyzeCore_eq_missing {df : Dataset} {s : String} (tc : List Value) (enc : Bool)
    (h : getCol df s = none) :
    analyzeCore df s tc enc = (Except.error (AnalysisError.keyError s), df) := by
  unfold analyzeCore
  rw [h]

lemma analyzeCore_snd (df : Dataset) (s : String) (tc : List Value) (enc : Bool) :
    (analyzeCore df s tc enc).2 = df := by
  cases h : getCol df s with
  | none => rw [analyzeCore_eq_missing tc enc h]
  | some scol =>
    rw [analyzeCore_eq_found tc enc h]
    by_cases hf : firstOccs scol = []
    · rw [if_pos hf]
    · rw [if_neg hf]

lemma analyzeCore_ok_inv {df : Dataset} {s : String} {tc : List Value} {enc : Bool}
    {r : Report} (h : (analyzeCore df s tc enc).1 = Except.ok r) :
    ∃ scol, getCol df s = some scol ∧ firstOccs scol ≠ [] ∧ r = buildReport df scol tc enc := by
  cases hs : getCol df s with
  | none => rw [analyzeCore_eq_missing tc enc hs] at h; exact absurd h (by simp)
  | some scol =>
    rw [analyzeCore_eq_found tc enc hs] at h
    by_cases hf : firstOccs scol = []
    · rw [if_pos hf] at h; exact absurd h (by simp)
    · rw [if_neg hf] at h
      simp only [Except.ok.injEq] at h
      exact ⟨scol, rfl, hf, h.symm⟩

lemma analyzeCore_ok {df : Dataset} {s : String} {scol : List Value} (tc : List Value)
    (enc : Bool) (hs : getCol df s = some scol) (hf : firstOccs scol ≠ []) :
    (analyzeCore df s tc enc).1 = Except.ok (buildReport df scol tc enc) := by
  rw [analyzeCore_eq_found tc enc hs, if_neg hf]

lemma bias_analysis_eq_missing {d : Dataset} {t : String} (s : String)
    (h : getCol d t = none) :
    bias_analysis d s t = (Except.error (AnalysisError.keyError t), d) := by
  unfold bias_analysis
  rw [h]

lemma bias_analysis_eq_found {d : Dataset} {t : String} (s : String) {tc : List Value}
    (h : getCol d t = some tc) :
    bias_analysis d s t =
      if isNumericCol tc then analyzeCore d s tc false
      else analyzeCore (setCol d t (factorize tc)) s (factorize tc) true := by
  unfold bias_analysis
  rw [h]

lemma bias_analysis_snd_of_numeric {d : Dataset} {t : String} (s : String)
    {tc : List Value} (h : getCol d t = some tc) (hnum : isNumericCol tc = true) :
    (bias_analysis d s t).2 = d := by
  rw [bias_analysis_eq_found s h, if_pos hnum, analyzeCore_snd]

lemma bias_analysis_snd_of_text {d : Dataset} {t : String} (s : String)
    {tc : List Value} (h : getCol d t = some tc) (hnum : isNumericCol tc = false) :
    (bias_analysis d s t).2 = setCol d t (factorize tc) := by
  rw [bias_analysis_eq_found s h, if_neg (by simp [hnum]), analyzeCore_snd]

lemma bias_analysis_getCol_snd_ne (d : Dataset) (s : String) {t name : String}
    (h : name ≠ t) : getCol (bias_analysis d s t).2 name = getCol d name := by
  cases ht : getCol d t with
  | none => rw [bias_analysis_eq_missing s ht]
  | some tc =>
    by_cases hnum : isNumericCol tc
    · rw [bias_analysis_snd_of_numeric s ht hnum]
    · rw [bias_analysis_snd_of_text s ht (by simpa using hnum), getCol_setCol_ne _ _ _ h]

lemma bias_analysis_ok_general {d : Dataset} {s t : String} {r : Report}
    (h : (bias_analysis d s t).1 = Except.ok r) :
    ∃ df' scol tcU enc, getCol df' s = some scol ∧ firstOccs scol ≠ [] ∧
      r = buildReport df' scol tcU enc := by
  cases ht : getCol d t with
  | none => rw [bias_analysis_eq_missing s ht] at h; exact absurd h (by simp)
  | some tc =>
    rw [bias_analysis_eq_found s ht] at h
    by_cases hnum : isNumericCol tc
    · rw [if_pos hnum] at h
      rcases analyzeCore_ok_inv h with ⟨scol, hs, hf, hr⟩
      exact ⟨d, scol, tc, false, hs, hf, hr⟩
    · rw [if_neg hnum] at h
      rcases analyzeCore_ok_inv h with ⟨scol, hs, hf, hr⟩
      exact ⟨setCol d t (factorize tc), scol, factorize tc, true, hs, hf, hr⟩

lemma bias_analysis_ok_sensitive {d : Dataset} {s t : String} {r : Report}
    {scol : List Value} (hst : s ≠ t) (hs : getCol d s = some scol)
    (h : (bias_analysis d s t).1 = Except.ok r) :
    ∃ df' tcU enc, firstOccs scol ≠ [] ∧ r = buildReport df' scol tcU enc := by
  cases ht : getCol d t with
  | none => rw [bias_analysis_eq_missing s ht] at h; exact absurd h (by simp)
  | some tc =>
    rw [bias_analysis_eq_found s ht] at h
    by_cases hnum : isNumericCol tc
    · rw [if_pos hnum] at h
      rcases analyzeCore_ok_inv h with ⟨scol', hs', hf, hr⟩
      rw [hs] at hs'
      cases hs'
      exact ⟨d, tc, false, hf, hr⟩
    · rw [if_neg hnum] at h
      rcases analyzeCore_ok_inv h with ⟨scol', hs', hf, hr⟩
      rw [getCol_setCol_ne _ _ _ hst, hs] at hs'
      cases hs'
      exact ⟨setCol d t (factorize tc), factorize tc, true, hf, hr⟩

@[simp] lemma buildReport_target_encoded (df : Dataset) (scol tc : List Value) (enc : Bool) :
    (buildReport df scol tc enc).target_encoded = enc := rfl

@[simp] lemma buildReport_rep (df : Dataset) (scol tc : List Value) (enc : Bool) :
    (buildReport df scol tc enc).rep = rep scol := rfl

@[simp] lemma buildReport_label_dist (df : Dataset) (scol tc : List Value) (enc : Bool) :
    (buildReport df scol tc enc).label_dist = label_dist scol tc := rfl

@[simp] lemma buildReport_rep_issue (df : Dataset) (scol tc : List Value) (enc : Bool) :
    (buildReport df scol tc enc).rep_issue = rep_issue scol := rfl

@[simp] lemma buildReport_label_issue (df : Dataset) (scol tc : List Value) (enc : Bool) :
    (buildReport df scol tc enc).label_issue = label_issue scol tc := rfl

@[simp] lemma buildReport_fairness_issue (df : Dataset) (scol tc : List Value) (enc : Bool) :
    (buildReport df scol tc enc).fairness_issue = fairness_issue scol tc := rfl

@[simp] lemma buildReport_traffic (df : Dataset) (scol tc : List Value) (enc : Bool) :
    (buildReport df scol tc enc).traffic = traffic scol tc := rfl

@[simp] lemma buildReport_dominant_share (df : Dataset) (scol tc : List Value) (enc : Bool) :
    (buildReport df scol tc enc).dominant_share = dominant_share scol := rfl

@[simp] lemma buildReport_spd (df : Dataset) (scol tc : List Value) (enc : Bool) :
    (buildReport df scol tc enc).spd = spd scol tc := rfl

@[simp] lemma buildReport_di (df : Dataset) (scol tc : List Value) (enc : Bool) :
    (buildReport df scol tc enc).di = di scol tc := rfl

lemma firstOccs_append (l₁ l₂ : List Value) :
    firstOccs (l₁ ++ l₂) =
      firstOccs l₁ ++ (firstOccs l₂).filter fun w => decide (w ∉ l₁) := by
  induction l₁ with
  | nil =>
    rw [List.nil_append, List.filter_eq_self.mpr fun a ha => by simp]
    rfl
  | cons v l₁ ih =>
    have key : ∀ X : List Value,
        X.filter (fun a => decide (a ≠ v) && decide (a ∉ l₁)) =
          X.filter fun a => decide (a ∉ v :: l₁) := by
      intro X
      refine List.filter_congr fun a ha => ?_
      by_cases h1 : a = v <;> by_cases h2 : a ∈ l₁ <;> simp [h1, h2]
    simp only [List.cons_append, firstOccs, List.append_eq, ih, List.filter_append,
      List.filter_filter, key]

lemma indexOf_firstOccs_split (l₁ l₂ : List Value) (v : Value) (hfresh : v ∉ l₁) :
    (firstOccs (l₁ ++ v :: l₂)).indexOf v = (firstOccs l₁).length := by
  rw [firstOccs_append,
    List.indexOf_append_of_not_mem fun hc => hfresh (mem_firstOccs.mp hc)]
  have hcons : firstOccs (v :: l₂) = v :: (firstOccs l₂).filter fun w => decide (w ≠ v) := rfl
  rw [hcons, List.filter_cons_of_pos (by simp [hfresh]), List.indexOf_cons_self, Nat.add_zero]

lemma factorize_code_fresh (l : List Value) (i : Nat) (hi : i < l.length)
    (hfresh : l[i] ∉ l.take i) :
    (firstOccs l).indexOf l[i] = ((l.take i).dedup).length := by
  have hsplit : l = l.take i ++ l[i] :: l.drop (i + 1) := by
    conv_lhs => rw [← List.take_append_drop i l]
    rw [List.drop_eq_getElem_cons hi]
  have h := indexOf_firstOccs_split (l.take i) (l.drop (i + 1)) l[i] hfresh
  rw [← hsplit] at h
  rw [h, (firstOccs_perm_dedup (l.take i)).length_eq]

lemma firstOccs_const {l : List Value} {g : Value} (hne : l ≠ []) (hall : ∀ a ∈ l, a = g) :
    firstOccs l = [g] := by
  cases l with
  | nil => exact absurd rfl hne
  | cons v vs =>
    have hv : v = g := hall v (List.mem_cons_self v vs)
    subst hv
    simp only [firstOccs]
    congr 1
    rw [List.filter_eq_nil_iff]
    intro a ha
    have ha' : a = v := hall a (List.mem_cons_of_mem _ (mem_firstOccs.mp ha))
    simp [ha']

lemma rep_const {l : List Value} {g : Value} (hne : l ≠ []) (hall : ∀ a ∈ l, a = g) :
    rep l = [(g, 1)] := by
  unfold rep
  rw [firstOccs_const hne hall, List.map_cons, List.map_nil,
    List.count_eq_length.mpr fun b hb => (hall b hb).symm,
    div_self (Nat.cast_ne_zero.mpr fun h0 => hne (List.length_eq_zero.mp h0))]

lemma dominant_share_const {l : List Value} {g : Value} (hne : l ≠ [])
    (hall : ∀ a ∈ l, a = g) : dominant_share l = 1 := by
  unfold dominant_share
  rw [rep_const hne hall]
  rfl

lemma rep_issue_const {l : List Value} {g : Value} (hne : l ≠ [])
    (hall : ∀ a ∈ l, a = g) : rep_issue l = true := by
  unfold rep_issue
  rw [dominant_share_const hne hall]
  exact decide_eq_true (by norm_num)

lemma spd_const {l : List Value} {g : Value} (hne : l ≠ []) (hall : ∀ a ∈ l, a = g)
    (tcol : List Value) : spd l tcol = 0 := by
  unfold spd label_dist
  rw [firstOccs_const hne hall]
  simp [listMax, listMin]

lemma di_const {l : List Value} {g : Value} (hne : l ≠ []) (hall : ∀ a ∈ l, a = g)
    (tcol : List Value) : di l tcol = 1 := by
  unfold di label_dist
  rw [firstOccs_const hne hall]
  simp only [List.map_cons, List.map_nil, listMax, listMin, List.foldl_nil]
  by_cases hm : 0 < mean (groupVals l tcol g)
  · rw [if_pos hm, div_self (ne_of_gt hm)]
  · rw [if_neg hm]

lemma label_issue_const {l : List Value} {g : Value} (hne : l ≠ []) (hall : ∀ a ∈ l, a = g)
    (tcol : List Value) : label_issue l tcol = false := by
  unfold label_issue
  rw [spd_const hne hall]
  exact decide_eq_false (by norm_num)

lemma fairness_issue_const {l : List Value} {g : Value} (hne : l ≠ [])
    (hall : ∀ a ∈ l, a = g) (tcol : List Value) : fairness_issue l tcol = false := by
  unfold fairness_issue
  rw [spd_const hne hall, di_const hne hall]
  rw [decide_eq_false (p := (0:ℚ) > 1/10) (by norm_num),
    decide_eq_false (p := (1:ℚ) < 4/5) (by norm_num)]
  rfl

lemma traffic_const {l : List Value} {g : Value} (hne : l ≠ []) (hall : ∀ a ∈ l, a = g)
    (tcol : List Value) : traffic l tcol = "yellow" := by
  unfold traffic issues
  rw [rep_issue_const hne hall, label_issue_const hne hall, fairness_issue_const hne hall]
  rfl

lemma analyzeCore_fails_of_empty {df : Dataset} {s : String} (tc : List Value) (enc : Bool)
    (h : ∀ c, getCol df s = some c → c = []) :
    ∃ e, (analyzeCore df s tc enc).1 = Except.error e := by
  cases hs : getCol df s with
  | none => exact ⟨_, by rw [analyzeCore_eq_missing tc enc hs]⟩
  | some scol =>
    have hc : scol = [] := h scol hs
    subst hc
    refine ⟨AnalysisError.emptyIdxmax, ?_⟩
    rw [analyzeCore_eq_found tc enc hs, if_pos (show firstOccs [] = [] from rfl)]

lemma bias_analysis_fails_of_empty {d : Dataset} {s t : String}
    (h : ∀ c, getCol d s = some c → c = []) :
    ∃ e, (bias_analysis d s t).1 = Except.error e := by
  cases ht : getCol d t with
  | none => exact ⟨_, by rw [bias_analysis_eq_missing s ht]⟩
  | some tc =>
    by_cases hnum : isNumericCol tc
    · rcases analyzeCore_fails_of_empty tc false h with ⟨e, he⟩
      exact ⟨e, by rw [bias_analysis_eq_found s ht, if_pos hnum]; exact he⟩
    · have h' : ∀ c, getCol (setCol d t (factorize tc)) s = some c → c = [] := by
        intro c hc
        by_cases hst : s = t
        · subst hst
          rw [getCol_setCol_self (factorize tc) ht] at hc
          have htc : tc = [] := h tc ht
          subst htc
          cases hc
          rfl
        · rw [getCol_setCol_ne _ _ _ hst] at hc
          exact h c hc
      rcases analyzeCore_fails_of_empty (factorize tc) true h' with ⟨e, he⟩
      exact ⟨e, by rw [bias_analysis_eq_found s ht, if_neg hnum]; exact he⟩

/-- C1: for every rectangular dataset that is empty (zero rows), or that lacks the
sensitive or the target column, or whose sensitive column has zero distinct values,
`bias_analysis` raises an error (the spec's InvalidInputError: a pandas KeyError or
the idxmax ValueError) and returns no report. -/
theorem analyze_invalid_input_fails (d : Dataset) (s t : String) (hWF : WF d)
    (h : nrows d = 0 ∨ getCol d s = none ∨ getCol d t = none ∨
      ∃ c, getCol d s = some c ∧ c.dedup = []) :
    ∃ e, (bias_analysis d s t).1 = Except.error e := by
  rcases h with h0 | hmiss | htmiss | ⟨c, hsc, hded⟩
  · refine bias_analysis_fails_of_empty fun c hc => ?_
    rcases exists_of_getCol hc with ⟨p, hp, hpc⟩
    have hlen := hWF p hp
    rw [h0] at hlen
    rw [← hpc]
    exact List.length_eq_zero.mp hlen
  · exact bias_analysis_fails_of_empty fun c hc => by rw [hmiss] at hc; cases hc
  · exact ⟨AnalysisError.keyError t, by rw [bias_analysis_eq_missing s htmiss]⟩
  · have hc0 : c = [] := (List.dedup_eq_nil c).mp hded
    subst hc0
    exact bias_analysis_fails_of_empty fun c' hc' => by
      rw [hsc] at hc'; cases hc'; rfl

/-- C1 witness: the empty two-column table is rectangular, has zero rows, and
`bias_analysis` fails on it. -/
theorem analyze_invalid_input_fails_witness :
    WF emptyTable ∧ nrows emptyTable = 0 ∧
      ∃ e, (bias_analysis emptyTable "s" "t").1 = Except.error e :=
  ⟨by decide, rfl, analyze_invalid_input_fails emptyTable "s" "t" (by decide) (Or.inl rfl)⟩

/-- C2 counterexample: on a table whose target column is non-numeric, the caller-held
target column does not hold the same values after the call — line 33 assigns the
factorized codes into the caller's dataframe in place. -/
theorem analyze_mutates_counterexample :
    getCol (bias_analysis mixedTable "s" "t").2 "t" ≠ getCol mixedTable "t" := by decide

/-- C2 (amended): `bias_analysis` never changes any column other than the target column,
and leaves the dataset completely unchanged when the target column is numeric (or
missing); only a non-numeric target column is overwritten with its integer codes. -/
theorem analyze_mutation_scope (d : Dataset) (s t : String) :
    (∀ name, name ≠ t → getCol (bias_analysis d s t).2 name = getCol d name) ∧
    (∀ tc, getCol d t = some tc → isNumericCol tc = true → (bias_analysis d s t).2 = d) ∧
    (getCol d t = none → (bias_analysis d s t).2 = d) := by
  refine ⟨fun name hn => bias_analysis_getCol_snd_ne d s hn, ?_, ?_⟩
  · intro tc htc hnum
    exact bias_analysis_snd_of_numeric s htc hnum
  · intro hmiss
    rw [bias_analysis_eq_missing s hmiss]

/-- C2 (amended) witness: on the concrete mixed table, the non-target column `u` is
unchanged by the call. -/
theorem analyze_mutation_scope_witness :
    getCol (bias_analysis mixedTable "s" "t").2 "u" = getCol mixedTable "u" :=
  (analyze_mutation_scope mixedTable "s" "t").1 "u" (by decide)

/-- C3 counterexample: two sequential calls on the same caller-held table with a text
target column return different reports — the first reports target_encoded = true, the
second (seeing the column already coerced in place) reports target_encoded = false. -/
theorem analyze_rerun_counterexample :
    (bias_analysis textTargetTable "s" "t").1.map Report.target_encoded = Except.ok true ∧
    (bias_analysis (bias_analysis textTargetTable "s" "t").2 "s" "t").1.map
      Report.target_encoded = Except.ok false :=
  ⟨rfl, rfl⟩

/-- C3 (amended): when a call succeeds, a second call on the caller-held dataset succeeds
and returns the same report except that target_encoded is false; the two reports are
fully identical exactly when the target column was already numeric. -/
theorem analyze_rerun_reports (d : Dataset) (s t : String)
    (h : ∃ r, (bias_analysis d s t).1 = Except.ok r) :
    (bias_analysis (bias_analysis d s t).2 s t).1 =
      (bias_analysis d s t).1.map fun r => { r with target_encoded := false } := by
  rcases h with ⟨r, hr⟩
  cases ht : getCol d t with
  | none =>
    rw [bias_analysis_eq_missing s ht] at hr
    simp at hr
  | some tc =>
    by_cases hnum : isNumericCol tc
    · have hpost : (bias_analysis d s t).2 = d := bias_analysis_snd_of_numeric s ht hnum
      rw [hpost]
      rw [bias_analysis_eq_found s ht, if_pos hnum] at hr ⊢
      rcases analyzeCore_ok_inv hr with ⟨scol, hs, hf, -⟩
      rw [analyzeCore_ok tc false hs hf]
      rfl
    · rw [bias_analysis_eq_found s ht, if_neg hnum] at hr
      rcases analyzeCore_ok_inv hr with ⟨scol, hs, hf, -⟩
      have hpost : (bias_analysis d s t).2 = setCol d t (factorize tc) :=
        bias_analysis_snd_of_text s ht (by simpa using hnum)
      rw [hpost]
      have ht2 : getCol (setCol d t (factorize tc)) t = some (factorize tc) :=
        getCol_setCol_self (factorize tc) ht
      rw [bias_analysis_eq_found s ht2, if_pos (isNumericCol_factorize tc)]
      rw [bias_analysis_eq_found s ht, if_neg hnum]
      rw [analyzeCore_ok (factorize tc) false hs hf, analyzeCore_ok (factorize tc) true hs hf]
      rfl

/-- C3 (amended) witness: on the concrete text-target table the first call succeeds and
the second call returns its report with target_encoded set to false. -/
theorem analyze_rerun_reports_witness :
    (∃ r, (bias_analysis textTargetTable "s" "t").1 = Except.ok r) ∧
    (bias_analysis (bias_analysis textTargetTable "s" "t").2 "s" "t").1 =
      (bias_analysis textTargetTable "s" "t").1.map fun r =>
        { r with target_encoded := false } :=
  ⟨⟨_, rfl⟩, analyze_rerun_reports textTargetTable "s" "t" ⟨_, rfl⟩⟩

/-- C4 counterexample: on a table with a text target column and no sensitive column, the
call fails (KeyError on the sensitive column, line 42) but the target-column coercion of
line 33 has already mutated the caller's dataset when the failure surfaces. -/
theorem analyze_failure_effect_counterexample :
    (bias_analysis noSensTable "s" "t").1 = Except.error (AnalysisError.keyError "s") ∧
    (bias_analysis noSensTable "s" "t").2 ≠ noSensTable :=
  ⟨rfl, by decide⟩

/-- C4 (amended): when `bias_analysis` fails, no report is produced and no column other
than the target column is affected; a failure from a missing target column leaves the
dataset completely unchanged, but a failure detected later (missing sensitive column or
no rows) may leave the target column already coerced. -/
theorem analyze_failure_scope (d : Dataset) (s t : String)
    (h : ∃ e, (bias_analysis d s t).1 = Except.error e) :
    (∀ name, name ≠ t → getCol (bias_analysis d s t).2 name = getCol d name) ∧
    (getCol d t = none → (bias_analysis d s t).2 = d) := by
  refine ⟨fun name hn => bias_analysis_getCol_snd_ne d s hn, fun hmiss => ?_⟩
  rw [bias_analysis_eq_missing s hmiss]

/-- C4 (amended) witness: on the concrete failing run, the (absent) column `x` reads the
same before and after the call. -/
theorem analyze_failure_scope_witness :
    getCol (bias_analysis noSensTable "s" "t").2 "x" = getCol noSensTable "x" :=
  (analyze_failure_scope noSensTable "s" "t" ⟨_, rfl⟩).1 "x" (by decide)

/-- C5: in every returned report, the disparate-impact ratio equals
min(group_target_means) / max(group_target_means) when the maximum group mean is
positive, and equals exactly 1 otherwise — in particular when the maximum is 0
(line 54). -/
theorem disparate_impact_spec (d : Dataset) (s t : String) (r : Report)
    (h : (bias_analysis d s t).1 = Except.ok r) :
    r.di = if 0 < listMax (r.label_dist.map Prod.snd) then
      listMin (r.label_dist.map Prod.snd) / listMax (r.label_dist.map Prod.snd)
    else 1 := by
  rcases bias_analysis_ok_general h with ⟨df', scol, tcU, enc, -, -, rfl⟩
  rfl

/-- C5 witness: the ratio equation holds on a concrete valid run. -/
theorem disparate_impact_spec_witness :
    ∃ r, (bias_analysis twoGroupTable "s" "t").1 = Except.ok r ∧
      r.di = if 0 < listMax (r.label_dist.map Prod.snd) then
        listMin (r.label_dist.map Prod.snd) / listMax (r.label_dist.map Prod.snd)
      else 1 :=
  ⟨_, rfl, disparate_impact_spec twoGroupTable "s" "t" _ rfl⟩

/-- C6: in every returned report, the risk level is determined solely by the number of
true flags among the representation, label and fairness flags: zero flags gives green
(rendered LOW), exactly one gives yellow (rendered MODERATE), two or more give red
(rendered HIGH) — lines 57-58 and the rendering at lines 121-126. -/
theorem risk_level_from_flag_count (d : Dataset) (s t : String) (r : Report)
    (h : (bias_analysis d s t).1 = Except.ok r) :
    r.traffic = if flagCount r = 0 then "green"
      else if flagCount r = 1 then "yellow" else "red" := by
  rcases bias_analysis_ok_general h with ⟨df', scol, tcU, enc, -, -, rfl⟩
  rfl

/-- C6 witness: the flag-count equation holds on a concrete valid run. -/
theorem risk_level_from_flag_count_witness :
    ∃ r, (bias_analysis twoGroupTable "s" "t").1 = Except.ok r ∧
      r.traffic = if flagCount r = 0 then "green"
        else if flagCount r = 1 then "yellow" else "red" :=
  ⟨_, rfl, risk_level_from_flag_count twoGroupTable "s" "t" _ rfl⟩

/-- C7: in every returned report (sensitive and target columns distinct, as the caller
guarantees), the group proportions sum to exactly 1 — hence within tolerance 1e-9 — and
carry one entry per distinct value of the sensitive column. -/
theorem group_proportions_sum_one (d : Dataset) (s t : String) (r : Report)
    (scol : List Value) (hst : s ≠ t) (hs : getCol d s = some scol)
    (h : (bias_analysis d s t).1 = Except.ok r) :
    (r.rep.map Prod.snd).sum = 1 ∧
    abs ((r.rep.map Prod.snd).sum - 1) ≤ 1/1000000000 ∧
    (r.rep.map Prod.fst).Nodup ∧ (∀ a, a ∈ r.rep.map Prod.fst ↔ a ∈ scol) := by
  rcases bias_analysis_ok_sensitive hst hs h with ⟨df', tcU, enc, hf, rfl⟩
  simp only [buildReport_rep]
  have hne : scol ≠ [] := fun hnil => hf (by rw [hnil]; rfl)
  have hsum : ((rep scol).map Prod.snd).sum = 1 := by
    unfold rep
    rw [List.map_map]
    have hcomp : (Prod.snd ∘ fun g => (g, (scol.count g : ℚ) / (scol.length : ℚ))) =
        fun g => (scol.count g : ℚ) / (scol.length : ℚ) := rfl
    rw [hcomp, sum_map_div, sum_map_natCast, sum_count_firstOccs,
      div_self (Nat.cast_ne_zero.mpr fun h0 => hne (List.length_eq_zero.mp h0))]
  have hkeys : (rep scol).map Prod.fst = firstOccs scol := by
    unfold rep
    rw [List.map_map]
    have hcomp : (Prod.fst ∘ fun g => (g, (scol.count g : ℚ) / (scol.length : ℚ))) =
        id := rfl
    rw [hcomp, List.map_id]
  refine ⟨hsum, by rw [hsum]; norm_num, ?_, ?_⟩
  · rw [hkeys]
    exact firstOccs_nodup scol
  · intro a
    rw [hkeys, mem_firstOccs]

/-- C7 witness: the proportions of a concrete valid run sum to 1. -/
theorem group_proportions_sum_one_witness :
    ∃ r, (bias_analysis twoGroupTable "s" "t").1 = Except.ok r ∧
      (r.rep.map Prod.snd).sum = 1 :=
  ⟨_, rfl, (group_proportions_sum_one twoGroupTable "s" "t" _
    [Value.str "a", Value.str "b"] (by decide) rfl rfl).1⟩

/-- C8: when the target column is non-numeric, every returned report has
target_encoded = true and the caller-held target column is replaced by integer codes
given by a single coding function that assigns each fresh value the number of distinct
values seen strictly before it (first distinct value 0, next new value 1, and so on);
when the target column is numeric, target_encoded = false and the dataset is unchanged
(lines 32-36). -/
theorem target_encoding_first_seen (d : Dataset) (s t : String) (tcol : List Value)
    (ht : getCol d t = some tcol) :
    (isNumericCol tcol = false →
      (∀ r, (bias_analysis d s t).1 = Except.ok r → r.target_encoded = true) ∧
      ∃ code : Value → ℕ,
        getCol (bias_analysis d s t).2 t = some (tcol.map fun v => Value.num (code v)) ∧
        ∀ i, (hi : i < tcol.length) → tcol[i] ∉ tcol.take i →
          code tcol[i] = ((tcol.take i).dedup).length) ∧
    (isNumericCol tcol = true →
      (∀ r, (bias_analysis d s t).1 = Except.ok r → r.target_encoded = false) ∧
      (bias_analysis d s t).2 = d) := by
  constructor
  · intro hnum
    constructor
    · intro r hr
      rw [bias_analysis_eq_found s ht, if_neg (by simp [hnum])] at hr
      rcases analyzeCore_ok_inv hr with ⟨scol, -, -, rfl⟩
      rfl
    · refine ⟨fun v => (firstOccs tcol).indexOf v, ?_, ?_⟩
      · rw [bias_analysis_snd_of_text s ht hnum,
          getCol_setCol_self (factorize tcol) ht]
        rfl
      · intro i hi hfresh
        exact factorize_code_fresh tcol i hi hfresh
  · intro hnum
    constructor
    · intro r hr
      rw [bias_analysis_eq_found s ht, if_pos hnum] at hr
      rcases analyzeCore_ok_inv hr with ⟨scol, -, -, rfl⟩
      rfl
    · exact bias_analysis_snd_of_numeric s ht hnum

/-- C8 witness: the encoding contract instantiated on a concrete table whose target
column is the text column yes, no, yes. -/
theorem target_encoding_first_seen_witness :
    getCol yesNoTable "t" = some yesNoCol ∧
    ((isNumericCol yesNoCol = false →
      (∀ r, (bias_analysis yesNoTable "s" "t").1 = Except.ok r → r.target_encoded = true) ∧
      ∃ code : Value → ℕ,
        getCol (bias_analysis yesNoTable "s" "t").2 "t" =
          some (yesNoCol.map fun v => Value.num (code v)) ∧
        ∀ i, (hi : i < yesNoCol.length) → yesNoCol[i] ∉ yesNoCol.take i →
          code yesNoCol[i] = ((yesNoCol.take i).dedup).length) ∧
    (isNumericCol yesNoCol = true →
      (∀ r, (bias_analysis yesNoTable "s" "t").1 = Except.ok r → r.target_encoded = false) ∧
      (bias_analysis yesNoTable "s" "t").2 = yesNoTable)) :=
  ⟨rfl, target_encoding_first_seen yesNoTable "s" "t" yesNoCol rfl⟩

/-- C9: in every returned report, the statistical parity difference equals
max(group_target_means) minus min(group_target_means), and is nonnegative
(lines 48-53). -/
theorem statistical_parity_spec (d : Dataset) (s t : String) (r : Report)
    (h : (bias_analysis d s t).1 = Except.ok r) :
    r.spd = listMax (r.label_dist.map Prod.snd) - listMin (r.label_dist.map Prod.snd) ∧
    0 ≤ r.spd := by
  rcases bias_analysis_ok_general h with ⟨df', scol, tcU, enc, -, hf, rfl⟩
  refine ⟨rfl, ?_⟩
  simp only [buildReport_spd]
  unfold spd
  have hne : (label_dist scol tcU).map Prod.snd ≠ [] := fun hmap => hf (by
    unfold label_dist at hmap
    simpa using hmap)
  exact sub_nonneg.mpr (listMin_le_listMax hne)

/-- C9 witness: the spread equation and nonnegativity hold on a concrete valid run. -/
theorem statistical_parity_spec_witness :
    ∃ r, (bias_analysis twoGroupTable "s" "t").1 = Except.ok r ∧
      (r.spd = listMax (r.label_dist.map Prod.snd) - listMin (r.label_dist.map Prod.snd) ∧
        0 ≤ r.spd) :=
  ⟨_, rfl, statistical_parity_spec twoGroupTable "s" "t" _ rfl⟩

/-- C10: on a valid non-empty dataset whose sensitive column has exactly one distinct
value, the analysis succeeds with statistical parity difference 0, disparate impact
ratio 1, label and fairness flags false, representation flag true with dominant ratio 1,
and risk yellow (rendered MODERATE). -/
theorem single_group_report (d : Dataset) (s t : String) (g : Value)
    (scol tcol : List Value) (hst : s ≠ t) (hs : getCol d s = some scol)
    (ht : getCol d t = some tcol) (hne : scol ≠ []) (hall : ∀ a ∈ scol, a = g) :
    ∃ r, (bias_analysis d s t).1 = Except.ok r ∧ r.spd = 0 ∧ r.di = 1 ∧
      r.label_issue = false ∧ r.fairness_issue = false ∧ r.rep_issue = true ∧
      r.dominant_share = 1 ∧ r.traffic = "yellow" := by
  have hf : firstOccs scol ≠ [] := by rw [firstOccs_const hne hall]; simp
  by_cases hnum : isNumericCol tcol
  · refine ⟨buildReport d scol tcol false, ?_, ?_⟩
    · rw [bias_analysis_eq_found s ht, if_pos hnum]
      exact analyzeCore_ok tcol false hs hf
    · simp only [buildReport_spd, buildReport_di, buildReport_label_issue,
        buildReport_fairness_issue, buildReport_rep_issue, buildReport_dominant_share,
        buildReport_traffic]
      exact ⟨spd_const hne hall tcol, di_const hne hall tcol, label_issue_const hne hall tcol,
        fairness_issue_const hne hall tcol, rep_issue_const hne hall,
        dominant_share_const hne hall, traffic_const hne hall tcol⟩
  · have hs' : getCol (setCol d t (factorize tcol)) s = some scol := by
      rw [getCol_setCol_ne _ _ _ hst]
      exact hs
    refine ⟨buildReport (setCol d t (factorize tcol)) scol (factorize tcol) true, ?_, ?_⟩
    · rw [bias_analysis_eq_found s ht, if_neg hnum]
      exact analyzeCore_ok (factorize tcol) true hs' hf
    · simp only [buildReport_spd, buildReport_di, buildReport_label_issue,
        buildReport_fairness_issue, buildReport_rep_issue, buildReport_dominant_share,
        buildReport_traffic]
      exact ⟨spd_const hne hall _, di_const hne hall _, label_issue_const hne hall _,
        fairness_issue_const hne hall _, rep_issue_const hne hall,
        dominant_share_const hne hall, traffic_const hne hall _⟩

/-- C10 witness: the single-group conclusions hold on a concrete one-group table. -/
theorem single_group_report_witness :
    ("s" : String) ≠ "t" ∧
    getCol oneGroupTable "s" = some [Value.str "a", Value.str "a"] ∧
    getCol oneGroupTable "t" = some numTargetCol ∧
    (∃ r, (bias_analysis oneGroupTable "s" "t").1 = Except.ok r ∧ r.spd = 0 ∧ r.di = 1 ∧
      r.label_issue = false ∧ r.fairness_issue = false ∧ r.rep_issue = true ∧
      r.dominant_share = 1 ∧ r.traffic = "yellow") :=
  ⟨by decide, rfl, rfl,
    single_group_report oneGroupTable "s" "t" (Value.str "a")
      [Value.str "a", Value.str "a"] numTargetCol (by decide) rfl rfl
      (by decide) (by decide)⟩

end BiasDashboard
